import Mathlib

set_option maxRecDepth 100000

/-!
Verification of the ZMap postal-code availability pipeline
(`Scripts/zmap_postal_code_availability.py` and
`Scripts/zmap_visualizing_response_rate.py`).

The Python code is shallowly embedded: IPv4 addresses are natural numbers
below 2^32, networks are (base address, prefix-length) pairs, Python dicts
are association lists with insertion-order semantics, Python sets of strings
are duplicate-free lists built by insertion-order `setAdd`, and fallible
Python code (exceptions) returns `Option`/`Except`.
-/

/-! ## Python string primitives

The scripts use `str.split` with a one-character separator and `str.strip`.
We model strings as Lean `String`s and operate on their character lists.
-/

/-- Python `str.split(sep)` for a one-character separator `sep` (no maxsplit):
`"".split(sep) == [""]`, adjacent separators produce empty groups. -/
def splitChar (sep : Char) : List Char → List (List Char)
  | [] => [[]]
  | c :: cs =>
    let r := splitChar sep cs
    if c = sep then [] :: r
    else
      match r with
      | [] => [[c]]
      | g :: gs => (c :: g) :: gs

/-- The characters Python `str.strip()` removes by default. -/
def isPySpace (c : Char) : Bool :=
  c = ' ' || c = '\t' || c = '\n' || c = '\r' || c = '\x0b' || c = '\x0c'

/-- Python `str.strip()`: drop leading and trailing whitespace. -/
def pyStrip (cs : List Char) : List Char :=
  ((cs.dropWhile isPySpace).reverse.dropWhile isPySpace).reverse

/-! ## IPv4 addresses and networks (model of Python `ipaddress` usage)

Only IPv4 dotted-quad / prefix-length forms appear in this repository's
data; the `ipaddress` library's netmask/hostmask spellings and IPv6 are
not modelled.
-/

/-- Dotted-quad components to a 32-bit address value. -/
def ip4 (a b c d : Nat) : Nat :=
  ((a * 256 + b) * 256 + c) * 256 + d

/-- An IPv4 network: base address plus prefix length, as produced by
`ipaddress.ip_network` with the default `strict=True` (host bits zero). -/
structure Net where
  base : Nat
  pfx : Nat
deriving DecidableEq, Repr

/-- Number of addresses covered by the network (2^(32-prefix)). -/
def Net.numAddrs (n : Net) : Nat := 2 ^ (32 - n.pfx)

/-- Python `IPv4Network.hosts()` in address order: all addresses except the
network and broadcast addresses; for /31 and /32 every address is usable. -/
def Net.hosts (n : Net) : List Nat :=
  if 31 ≤ n.pfx then (List.range n.numAddrs).map (fun i => n.base + i)
  else (List.range (n.numAddrs - 2)).map (fun i => n.base + 1 + i)

/-- Decimal value of a digit list (used only after an all-digits check). -/
def digitsVal (cs : List Char) : Nat :=
  cs.foldl (fun a c => a * 10 + (c.toNat - 48)) 0

/-- Parse one dotted-quad octet the way `ipaddress._parse_octet` does:
decimal digits only, no leading zero (except `0` itself), value ≤ 255. -/
def parseOctet : List Char → Option Nat
  | [] => none
  | c :: cs =>
    if !((c :: cs).all Char.isDigit) then none
    else if c = '0' && !cs.isEmpty then none
    else if digitsVal (c :: cs) ≤ 255 then some (digitsVal (c :: cs)) else none

/-- Parse a dotted-quad IPv4 address string into its 32-bit value, the way
`ipaddress._ip_int_from_string` does: split on the dots, require exactly
four components, parse each as an octet. -/
def parseIPv4 (cs : List Char) : Option Nat :=
  match splitChar '.' cs with
  | [a, b, c, d] =>
    match parseOctet a, parseOctet b, parseOctet c, parseOctet d with
    | some x1, some x2, some x3, some x4 => some (ip4 x1 x2 x3 x4)
    | _, _, _, _ => none
  | _ => none

/-- Parse a prefix length the way `ipaddress._prefix_from_prefix_string`
does: decimal digits only (leading zeros tolerated), value ≤ 32. -/
def parsePrefixLen : List Char → Option Nat
  | [] => none
  | c :: cs =>
    if !((c :: cs).all Char.isDigit) then none
    else if digitsVal (c :: cs) ≤ 32 then some (digitsVal (c :: cs)) else none

/-- Model of `ipaddress.ip_network(s)` (IPv4, default `strict=True`):
a bare address gets prefix 32; with `/p` the host bits must be zero. -/
def parseCIDRChars (cs : List Char) : Option Net :=
  match splitChar '/' cs with
  | [a] => (parseIPv4 a).map (fun addr => ⟨addr, 32⟩)
  | [a, p] =>
    match parseIPv4 a, parsePrefixLen p with
    | some addr, some len =>
      if addr % 2 ^ (32 - len) = 0 then some ⟨addr, len⟩ else none
    | _, _ => none
  | _ => none

/-- `ipaddress.ip_network` on a Lean string. -/
def parseCIDR (s : String) : Option Net := parseCIDRChars s.data

/-- Python `str(IPv4Address)`: dotted-quad rendering. -/
def ipToString (addr : Nat) : String :=
  toString (addr / 16777216 % 256) ++ "." ++ toString (addr / 65536 % 256) ++ "." ++
    toString (addr / 256 % 256) ++ "." ++ toString (addr % 256)

/-- Python `str(IPv4Network)`: `base/prefixlen`. -/
def netToString (n : Net) : String :=
  ipToString n.base ++ "/" ++ toString n.pfx

/-! ## Private / loopback classification (`IPv4Address.is_private`, `.is_loopback`) -/

/-- Membership of an address in a CIDR range given as (base, prefix length). -/
def inNet (base len addr : Nat) : Bool :=
  decide (base ≤ addr) && decide (addr < base + 2 ^ (32 - len))

/-- The IPv4 ranges of `ipaddress`'s `_private_networks` table. -/
def privateRanges : List (Nat × Nat) :=
  [ (ip4 0 0 0 0, 8), (ip4 10 0 0 0, 8), (ip4 127 0 0 0, 8), (ip4 169 254 0 0, 16),
    (ip4 172 16 0 0, 12), (ip4 192 0 0 0, 29), (ip4 192 0 0 170, 31), (ip4 192 0 2 0, 24),
    (ip4 192 168 0 0, 16), (ip4 198 18 0 0, 15), (ip4 198 51 100 0, 24), (ip4 203 0 113 0, 24),
    (ip4 240 0 0 0, 4), (ip4 255 255 255 255, 32) ]

/-- `IPv4Address.is_private`. -/
def isPrivate (addr : Nat) : Bool :=
  privateRanges.any (fun r => inNet r.1 r.2 addr)

/-- `IPv4Address.is_loopback` (127.0.0.0/8). -/
def isLoopback (addr : Nat) : Bool :=
  inNet (ip4 127 0 0 0) 8 addr

/-- `is_local_network` (zmap_postal_code_availability.py, lines 91-96):
scans `network.hosts()` and returns `True` at the first host with
`ip.is_private or ip.is_loopback`. -/
def is_local_network (n : Net) : Bool :=
  n.hosts.any (fun ip => isPrivate ip || isLoopback ip)

/-! ## Simulated scan (`get_zmap_scan_results`, simulation branch, lines 38-64)

The simulation reads the networks file, splits it into lines, and for each
parsable network enumerates `hosts()` with an index, breaking at index 10
and adding `str(ip)` to the result set when the index is a multiple of 4.
-/

/-- The enumerate-with-break-and-filter loop body of the simulation:
`for i, ip in enumerate(network.hosts()): if i >= 10: break; if i % 4 == 0: add`. -/
def simTake : Nat → List Nat → List Nat
  | _, [] => []
  | i, ip :: rest =>
    if 10 ≤ i then []
    else if i % 4 = 0 then ip :: simTake (i + 1) rest
    else simTake (i + 1) rest

/-- The address strings one network's simulation pass adds to the set. -/
def simNetworkIPs (n : Net) : List String :=
  (simTake 0 n.hosts).map ipToString

/-- Python `set.add`: a duplicate-free list in first-insertion order. -/
def setAdd (s : List String) (x : String) : List String :=
  if x ∈ s then s else s ++ [x]

/-- Python `set(list)`. -/
def pySet (l : List String) : List String := l.foldl setAdd []

/-- The whole simulation branch of `get_zmap_scan_results`, as a function of
the networks file's contents: `f.read().strip().split('\n')`, skip empty
lines, skip lines that fail `ip_network` parsing (warning only), and add
every 4th of the first 10 hosts of each network to the reachable set. -/
def simulationScan (contents : String) : List String :=
  (splitChar '\n' (pyStrip contents.data)).foldl
    (fun acc line =>
      if line.isEmpty then acc
      else
        match parseCIDRChars line with
        | none => acc
        | some net => (simNetworkIPs net).foldl setAdd acc)
    []

/-- Number of hosts the simulation examines for a network: enumeration stops
at index 10, so `min (number of hosts) 10`. -/
def examinedHosts (n : Net) : Nat := min n.hosts.length 10

/-! ## `get_zmap_scan_results` (lines 20-89)

The file system is modelled by whether the networks file exists plus its
contents; the external `zmap` subprocess is an oracle: `Except.ok stdout`
for exit status 0 with captured output, `Except.error e` for a nonzero
exit (`subprocess.CalledProcessError`).
-/

inductive ScanError where
  | fileNotFound : ScanError
  | calledProcessError : String → ScanError
deriving DecidableEq, Repr

/-- `get_zmap_scan_results`: raise `FileNotFoundError` when the networks
file is missing (line 34-35, before either mode does any work); in
simulation mode return the simulated set; in real mode run `zmap` and
return `set(result.stdout.strip().split("\n"))`, re-raising a
`CalledProcessError`. -/
def get_zmap_scan_results (filePresent : Bool) (contents : String)
    (simulation_mode : Bool) (zmapRun : Except String String) :
    Except ScanError (List String) :=
  if !filePresent then Except.error ScanError.fileNotFound
  else if simulation_mode then Except.ok (simulationScan contents)
  else
    match zmapRun with
    | Except.ok stdout =>
      Except.ok (pySet ((splitChar '\n' (pyStrip stdout.data)).map String.mk))
    | Except.error e => Except.error (ScanError.calledProcessError e)

/-! ## Input loader (`process_input_csv`, lines 98-150)

A CSV row is modelled by its two accessed fields; `row.get` yields `none`
for a missing column. Python dicts keyed by the normalized network string
are association lists where assignment overwrites the existing key in
place and otherwise appends.
-/

structure Row where
  network : Option String
  postal_code : Option String
deriving DecidableEq, Repr

/-- Python dict assignment `d[k] = v`: overwrite in place or append. -/
def dictInsert (k v : String) : List (String × String) → List (String × String)
  | [] => [(k, v)]
  | e :: rest => if e.1 = k then (k, v) :: rest else e :: dictInsert k v rest

/-- Python dict subscript `d[k]` as an `Option` (a miss raises `KeyError`). -/
def dictGet (k : String) : List (String × String) → Option String
  | [] => none
  | e :: rest => if e.1 = k then some e.2 else dictGet k rest

/-- `if max_networks and row_count >= max_networks` — `None` and `0` are
falsy, so only a nonzero cap takes effect. -/
def capReached : Option Nat → Nat → Bool
  | none, _ => false
  | some m, c => if m = 0 then false else decide (m ≤ c)

/-- The row loop of `process_input_csv` (lines 117-143). Branches, in
source order: stop when the cap is reached; skip (uncounted) when a field
is missing or empty; on a CIDR parse failure (`ValueError`) log and fall
through to `row_count += 1` (counted); skip (uncounted) local networks;
otherwise append the normalized string to the list, assign it in the map,
and count the row. -/
def processLoop (maxNetworks : Option Nat) :
    List Row → Nat → List String → List (String × String) →
    List String × List (String × String)
  | [], _, nets, pcs => (nets, pcs)
  | r :: rest, rowCount, nets, pcs =>
    if capReached maxNetworks rowCount then (nets, pcs)
    else
      match r.network, r.postal_code with
      | some ns, some p =>
        if ns.isEmpty || p.isEmpty then processLoop maxNetworks rest rowCount nets pcs
        else
          match parseCIDR ns with
          | none => processLoop maxNetworks rest (rowCount + 1) nets pcs
          | some net =>
            if is_local_network net then processLoop maxNetworks rest rowCount nets pcs
            else
              processLoop maxNetworks rest (rowCount + 1)
                (nets ++ [netToString net]) (dictInsert (netToString net) p pcs)
      | _, _ => processLoop maxNetworks rest rowCount nets pcs

/-- `process_input_csv`: returns the retained network strings in input
order and the network-to-postal-code map. -/
def process_input_csv (rows : List Row) (maxNetworks : Option Nat) :
    List String × List (String × String) :=
  processLoop maxNetworks rows 0 [] []

/-- Modelled from the claim's words (C5), for comparison with
`process_input_csv`: identical except that a row whose network string
fails CIDR parsing does **not** count toward the cap. -/
def processLoopClaim (maxNetworks : Option Nat) :
    List Row → Nat → List String → List (String × String) →
    List String × List (String × String)
  | [], _, nets, pcs => (nets, pcs)
  | r :: rest, rowCount, nets, pcs =>
    if capReached maxNetworks rowCount then (nets, pcs)
    else
      match r.network, r.postal_code with
      | some ns, some p =>
        if ns.isEmpty || p.isEmpty then processLoopClaim maxNetworks rest rowCount nets pcs
        else
          match parseCIDR ns with
          | none => processLoopClaim maxNetworks rest rowCount nets pcs
          | some net =>
            if is_local_network net then processLoopClaim maxNetworks rest rowCount nets pcs
            else
              processLoopClaim maxNetworks rest (rowCount + 1)
                (nets ++ [netToString net]) (dictInsert (netToString net) p pcs)
      | _, _ => processLoopClaim maxNetworks rest rowCount nets pcs

/-- The claim-variant loader. -/
def process_input_csv_claim (rows : List Row) (maxNetworks : Option Nat) :
    List String × List (String × String) :=
  processLoopClaim maxNetworks rows 0 [] []

/-! ## Availability aggregator (`calculate_availability`, lines 152-194)

One row of the flat export log (`networks_and_ips` / `networks_and_ips.csv`);
`reachable` is stored as the Python int `1` or `0`.
-/

structure AddressRecord where
  network : String
  ip : String
  postal_code : String
  reachable : Nat
deriving DecidableEq, Repr

/-- The `defaultdict(lambda: [0, 0])` accumulator: postal code to
(reachable_count, total_count), entries in first-touch order. -/
abbrev Stats := List (String × Nat × Nat)

/-- The aggregator's per-host update of the defaultdict: `[0] += 1` when
the host is reachable, `[1] += 1` always, creating a `[0, 0]` entry on
first access. -/
def bumpStat (p : String) (b : Bool) : Stats → Stats
  | [] => [(p, (if b then 1 else 0), 1)]
  | e :: rest =>
    if e.1 = p then (e.1, e.2.1 + (if b then 1 else 0), e.2.2 + 1) :: rest
    else e :: bumpStat p b rest

/-- The direct-fold variant's per-row update
(zmap_visualizing_response_rate.py, lines 66-71): `[0] += reachable`,
`[1] += 1`. -/
def bumpFold (p : String) (reach : Nat) : Stats → Stats
  | [] => [(p, reach, 1)]
  | e :: rest =>
    if e.1 = p then (e.1, e.2.1 + reach, e.2.2 + 1) :: rest
    else e :: bumpFold p reach rest

/-- The inner host loop of `calculate_availability` (lines 173-187): for
each host, test membership of `str(ip)` in the reachable set, append one
`AddressRecord`, and update the postal code's counters. -/
def procHosts (reach : List String) (nstr p : String) :
    List Nat → Stats × List AddressRecord → Stats × List AddressRecord
  | [], acc => acc
  | ip :: rest, (st, rs) =>
    let ipStr := ipToString ip
    let b : Bool := ipStr ∈ reach
    procHosts reach nstr p rest
      (bumpStat p b st, rs ++ [⟨nstr, ipStr, p, if b then 1 else 0⟩])

/-- The outer network loop of `calculate_availability` (lines 169-187).
`ipaddress.ip_network(network_str)` re-parses each stored string and
`postal_codes[network_str]` is a dict subscript; failure of either raises
out of the function (`none`). -/
def calcLoop (pcs : List (String × String)) (reach : List String) :
    List String → Stats × List AddressRecord →
    Option (Stats × List AddressRecord)
  | [], acc => some acc
  | nstr :: rest, acc =>
    match parseCIDR nstr, dictGet nstr pcs with
    | some net, some p => calcLoop pcs reach rest (procHosts reach nstr p net.hosts acc)
    | _, _ => none

/-- `calculate_availability` (zmap_postal_code_availability.py): returns
the per-postal-code statistics together with the emitted `AddressRecord`
rows (the list persisted to `networks_and_ips.csv`). -/
def calculate_availability (networks : List String)
    (postal_codes : List (String × String)) (reachable_ips : List String) :
    Option (Stats × List AddressRecord) :=
  calcLoop postal_codes reachable_ips networks ([], [])

/-- The direct-fold aggregation variant
(`calculate_availability` in zmap_visualizing_response_rate.py,
lines 52-79): fold the persisted rows, adding `reachable` to the first
counter and `1` to the second. -/
def calculate_availability_from_records (recs : List AddressRecord) : Stats :=
  recs.foldl (fun st r => bumpFold r.postal_code r.reachable st) []

/-- Number of emitted rows carrying postal code `p`. -/
def countTotal (recs : List AddressRecord) (p : String) : Nat :=
  recs.countP (fun r => r.postal_code = p)

/-- Number of emitted rows carrying postal code `p` with `reachable = 1`. -/
def countReach (recs : List AddressRecord) (p : String) : Nat :=
  recs.countP (fun r => r.postal_code = p ∧ r.reachable = 1)

/-- Value of a stats entry, `(0, 0)` when the key is absent. -/
def statValue (p : String) : Stats → Nat × Nat
  | [] => (0, 0)
  | e :: rest => if e.1 = p then e.2 else statValue p rest

/-- The keys of a stats accumulator are pairwise distinct. -/
def KeysNodup (st : Stats) : Prop :=
  st.Pairwise (fun a b => a.1 ≠ b.1)

/-! ## Reporting (`visualize_response_rates`, lines 196-216)

Only the rate computation and threshold filter are modelled (the chart
itself has no logic). Python `/` on ints raises `ZeroDivisionError` when
the divisor is 0; the rates are modelled as rationals.
-/

/-- The loop of `visualize_response_rates`: for each entry compute
`(reachable / total) * 100` — raising `ZeroDivisionError` when
`total == 0` — and keep codes whose percentage meets the threshold. -/
def ratesLoop (thr : Rat) : Stats → List (String × Rat) →
    Except String (List (String × Rat))
  | [], acc => Except.ok acc
  | (p, reach, total) :: rest, acc =>
    if total = 0 then Except.error ("ZeroDivisionError")
    else
      let percentage : Rat := ((reach : Rat) / (total : Rat)) * 100
      if thr ≤ percentage then ratesLoop thr rest (acc ++ [(p, percentage)])
      else ratesLoop thr rest acc

/-- `visualize_response_rates`, up to the point where the surviving
(postal code, response rate) pairs are handed to the plot. -/
def visualize_response_rates (stats : Stats) (min_threshold : Rat) :
    Except String (List (String × Rat)) :=
  ratesLoop min_threshold stats []

/-! ## Derived descriptions of the loader's per-row behaviour -/

/-- Whether a row makes `process_input_csv` execute `row_count += 1`:
both fields present and nonempty, and the network string either fails CIDR
parsing (the `except ValueError` branch falls through to the increment) or
parses to a non-local network. -/
def rowCounted (r : Row) : Bool :=
  match r.network, r.postal_code with
  | some ns, some p =>
    if ns.isEmpty || p.isEmpty then false
    else
      match parseCIDR ns with
      | none => true
      | some net => !is_local_network net
  | _, _ => false

/-- The network strings a single row appends to the loader's list. -/
def rowNets (r : Row) : List String :=
  match r.network, r.postal_code with
  | some ns, some p =>
    if ns.isEmpty || p.isEmpty then []
    else
      match parseCIDR ns with
      | none => []
      | some net => if is_local_network net then [] else [netToString net]
  | _, _ => []

/-- The effect of a single row on the loader's postal-code map. -/
def rowDict (r : Row) (pcs : List (String × String)) : List (String × String) :=
  match r.network, r.postal_code with
  | some ns, some p =>
    if ns.isEmpty || p.isEmpty then pcs
    else
      match parseCIDR ns with
      | none => pcs
      | some net =>
        if is_local_network net then pcs else dictInsert (netToString net) p pcs
  | _, _ => pcs

/-- The input prefix up to and including the `k`-th counted row (in the
sense of `rowCounted`): processing with cap `k` sees exactly these rows. -/
def truncAfter : Nat → List Row → List Row
  | _, [] => []
  | k, r :: rest =>
    if rowCounted r then (if k ≤ 1 then [r] else r :: truncAfter (k - 1) rest)
    else r :: truncAfter k rest

/-- The aggregation invariant tying the stats accumulator to the emitted
rows: distinct keys, and every key's counters equal the row counts. -/
def CalcInv (st : Stats) (rs : List AddressRecord) : Prop :=
  KeysNodup st ∧ ∀ p, statValue p st = (countReach rs p, countTotal rs p)

/-! ## Concrete instances used by counterexamples and witnesses -/

/-- Two rows carrying the same public network with different postal codes. -/
def rows4 : List Row :=
  [⟨some ("8.8.8.0/24"), some ("11111")⟩, ⟨some ("8.8.8.0/24"), some ("22222")⟩]

/-- A single valid public row. -/
def rowsW : List Row := [⟨some ("8.8.8.0/24"), some ("11111")⟩]

/-- A row whose network string fails CIDR parsing, then a valid public row. -/
def rows5 : List Row :=
  [⟨some ("not-a-cidr"), some ("99999")⟩, ⟨some ("8.8.8.0/24"), some ("99999")⟩]

/-- The network 8.8.8.0/24. -/
def net24ex : Net := ⟨ip4 8 8 8 0, 24⟩

/-- A networks file containing the single network 8.8.8.0/24. -/
def simFile24 : String := "8.8.8.0/24"

/-- A networks file with a /24 and an overlapping /31 inside it. -/
def simFileOverlap : String := "8.8.8.0/24" ++ "\n" ++ "8.8.8.2/31"

/-- Aggregation witness inputs: one /30 network (hosts .1 and .2). -/
def nets30 : List String := ["8.8.8.0/30"]

/-- Postal-code map for `nets30`. -/
def pcs30 : List (String × String) := [("8.8.8.0/30", "X")]

/-- Reachable set for `nets30`: only the first host. -/
def reach30 : List String := ["8.8.8.1"]

/-- The statistics `calculate_availability nets30 pcs30 reach30` produces. -/
def exStats : Stats := [("X", 1, 2)]

/-- The rows `calculate_availability nets30 pcs30 reach30` emits. -/
def exRecs : List AddressRecord :=
  [⟨"8.8.8.0/30", "8.8.8.1", "X", 1⟩, ⟨"8.8.8.0/30", "8.8.8.2", "X", 0⟩]

example : parseCIDR ("8.8.8.0/24") = some ⟨ip4 8 8 8 0, 24⟩ := by decide
example : parseCIDR ("8.8.8.1/24") = none := by decide
example : parseCIDR ("not-a-cidr") = none := by decide
example : netToString ⟨ip4 8 8 8 0, 24⟩ = "8.8.8.0/24" := by rfl
example : (Net.hosts ⟨ip4 8 8 8 0, 24⟩).length = 254 := by decide
example : is_local_network ⟨ip4 192 168 0 0, 30⟩ = true := by decide

/-! ## Elementary behaviour checks (spec §8 scenarios) -/

example : (Net.hosts ⟨ip4 8 8 8 0, 24⟩).length = 254 := by decide

example : is_local_network ⟨ip4 192 168 1 0, 24⟩ = true := by decide

example : is_local_network ⟨ip4 10 0 0 0, 24⟩ = true := by decide

example : is_local_network net24ex = false := by decide

example : process_input_csv [⟨some ("192.168.1.0/24"), some ("12345")⟩, ⟨some ("10.0.0.0/24"), some ("67890")⟩, ⟨some ("8.8.8.0/24"), some ("98765")⟩] none =
    (["8.8.8.0/24"], [("8.8.8.0/24", "98765")]) := by decide

example : calculate_availability_from_records
    [⟨"n", "a", "98765", 1⟩, ⟨"n", "b", "98765", 0⟩, ⟨"n", "c", "98765", 1⟩] =
    [("98765", 2, 3)] := by decide

/-! ## C3: the classifier is an existential over usable hosts -/

/-- C3: for every network `N`, `is_local_network N` returns `true` iff at
least one usable host address of `N` (an element of `hosts()`) is a
private-range or loopback address; in particular a network that mixes such
addresses with public ones is classified local. -/
theorem is_local_network_iff_exists_private (n : Net) :
    is_local_network n = true ↔
      ∃ ip ∈ n.hosts, isPrivate ip = true ∨ isLoopback ip = true := by
  simp [is_local_network, List.any_eq_true, Bool.or_eq_true]

/-- Witness: 192.168.0.0/30 is classified local because its first host
192.168.0.1 is private. -/
theorem is_local_network_iff_exists_private_witness :
    is_local_network ⟨ip4 192 168 0 0, 30⟩ = true :=
  (is_local_network_iff_exists_private ⟨ip4 192 168 0 0, 30⟩).mpr
    ⟨ip4 192 168 0 1, by decide, Or.inl (by decide)⟩

/-! ## C8: the zero-total reporting hazard -/

/-- C8: the reporting stage does **not** guard the division: a stats
mapping containing a postal code with `total_count = 0` makes
`visualize_response_rates` raise `ZeroDivisionError` instead of skipping
the entry or reporting 0%. -/
theorem visualize_response_rates_zero_total_raises :
    visualize_response_rates [("00000", 0, 0)] 0 = Except.error ("ZeroDivisionError") := by
  rfl

/-! ## C9: the missing-file precondition check -/

/-- C9: `get_zmap_scan_results` raises `FileNotFoundError` exactly when the
networks file is missing — in both simulation and delegated mode, before
any scan work — and never raises it when the file exists. -/
theorem get_zmap_scan_results_missing_file (contents : String)
    (simulation_mode : Bool) (zmapRun : Except String String) :
    get_zmap_scan_results false contents simulation_mode zmapRun =
        Except.error ScanError.fileNotFound ∧
      get_zmap_scan_results true contents simulation_mode zmapRun ≠
        Except.error ScanError.fileNotFound := by
  refine ⟨rfl, ?_⟩
  cases simulation_mode
  · cases zmapRun <;> simp [get_zmap_scan_results]
  · simp [get_zmap_scan_results]

/-- Witness: a concrete missing-file call in simulation mode fails with
the file-not-found error. -/
theorem get_zmap_scan_results_missing_file_witness :
    get_zmap_scan_results false ("") true (Except.ok ("")) =
      Except.error ScanError.fileNotFound :=
  (get_zmap_scan_results_missing_file ("") true (Except.ok (""))).1

/-! ## C10: empty delegated-scan output yields the singleton empty string -/

/-- C10: in delegated mode, a successful external scan with empty output
makes `get_zmap_scan_results` return `set("".strip().split("\n"))`, the
one-element set containing the empty string — not the empty set. -/
theorem get_zmap_scan_results_empty_output_singleton (contents : String) :
    get_zmap_scan_results true contents false (Except.ok ("")) = Except.ok [""] ∧
      ([""] : List String) ≠ [] := by
  exact ⟨rfl, by simp⟩

/-! ## The loader's per-row step -/

theorem processLoop_cons (maxN : Option Nat) (r : Row) (rest : List Row)
    (cnt : Nat) (nets : List String) (pcs : List (String × String))
    (hcap : capReached maxN cnt = false) :
    processLoop maxN (r :: rest) cnt nets pcs =
      processLoop maxN rest (cnt + (if rowCounted r then 1 else 0))
        (nets ++ rowNets r) (rowDict r pcs) := by
  rcases r with ⟨rn, rp⟩
  rw [processLoop, hcap]
  rcases rn with _ | ns
  · simp [rowCounted, rowNets, rowDict]
  · rcases rp with _ | p
    · simp [rowCounted, rowNets, rowDict]
    · by_cases he : (ns.isEmpty || p.isEmpty) = true
      · simp [rowCounted, rowNets, rowDict, he]
      · rcases hpc : parseCIDR ns with _ | net
        · simp [rowCounted, rowNets, rowDict, he, hpc]
        · by_cases hl : is_local_network net = true
          · simp [rowCounted, rowNets, rowDict, he, hpc, hl]
          · simp [rowCounted, rowNets, rowDict, he, hpc, hl]

/-! ## Parse/render round trip

Used to state C4 non-vacuously: a retained key not only renders from the
non-local network the loader parsed, it also parses back to exactly that
network, so the key genuinely corresponds to a non-local network.
-/

theorem parseOctet_bound {cs : List Char} {k : Nat} (h : parseOctet cs = some k) :
    k ≤ 255 := by
  cases cs with
  | nil => cases h
  | cons c cs' =>
    rw [parseOctet] at h
    split at h
    · cases h
    · split at h
      · cases h
      · split at h
        · rename_i hle
          injection h with h'
          omega
        · cases h

theorem parsePrefixLen_bound {cs : List Char} {p : Nat}
    (h : parsePrefixLen cs = some p) : p ≤ 32 := by
  cases cs with
  | nil => cases h
  | cons c cs' =>
    rw [parsePrefixLen] at h
    split at h
    · cases h
    · split at h
      · rename_i hle
        injection h with h'
        omega
      · cases h

theorem parseIPv4_bound {cs : List Char} {addr : Nat}
    (h : parseIPv4 cs = some addr) : addr < 2 ^ 32 := by
  rw [parseIPv4] at h
  split at h
  · split at h
    · rename_i h1 h2 h3 h4
      injection h with h'
      have b1 := parseOctet_bound h1
      have b2 := parseOctet_bound h2
      have b3 := parseOctet_bound h3
      have b4 := parseOctet_bound h4
      rw [← h']
      simp only [ip4]
      omega
    · cases h
  · cases h

theorem parseCIDRChars_wf {cs : List Char} {n : Net} (h : parseCIDRChars cs = some n) :
    n.base < 2 ^ 32 ∧ n.pfx ≤ 32 ∧ n.base % 2 ^ (32 - n.pfx) = 0 := by
  rw [parseCIDRChars] at h
  split at h
  · rename_i a heq
    rcases hpa : parseIPv4 a with _ | addr <;> rw [hpa] at h
    · cases h
    · rw [Option.map_some'] at h
      injection h with h'
      rw [← h']
      refine ⟨parseIPv4_bound hpa, by dsimp only; omega, ?_⟩
      show addr % 2 ^ (32 - 32) = 0
      have h1 : (2 : Nat) ^ (32 - 32) = 1 := by norm_num
      rw [h1]
      exact Nat.mod_one addr
  · rename_i a p heq
    rcases hpa : parseIPv4 a with _ | addr <;> rw [hpa] at h
    · cases h
    · rcases hpp : parsePrefixLen p with _ | len <;> rw [hpp] at h
      · cases h
      · dsimp only at h
        split at h
        · rename_i hal
          injection h with h'
          rw [← h']
          exact ⟨parseIPv4_bound hpa, parsePrefixLen_bound hpp, hal⟩
        · cases h
  · cases h

theorem parseOctet_repr : ∀ k, k < 256 → parseOctet (toString k).data = some k := by
  decide

theorem parsePrefixLen_repr : ∀ p, p ≤ 32 → parsePrefixLen (toString p).data = some p := by
  decide

theorem dot_not_mem_repr : ∀ k, k < 256 → ('.' : Char) ∉ (toString k).data := by
  decide

theorem slash_not_mem_repr : ∀ k, k < 256 → ('/' : Char) ∉ (toString k).data := by
  decide

theorem splitChar_of_not_mem {sep : Char} :
    ∀ {a : List Char}, sep ∉ a → splitChar sep a = [a] := by
  intro a
  induction a with
  | nil => intro _; rfl
  | cons c cs ih =>
    intro h
    rw [List.mem_cons] at h
    push_neg at h
    obtain ⟨h1, h2⟩ := h
    have hc : ¬ (c = sep) := fun hh => h1 hh.symm
    simp only [splitChar, if_neg hc, ih h2]

theorem splitChar_append_sep {sep : Char} :
    ∀ {a : List Char} (b : List Char), sep ∉ a →
      splitChar sep (a ++ sep :: b) = a :: splitChar sep b := by
  intro a
  induction a with
  | nil =>
    intro b _
    simp [splitChar]
  | cons c cs ih =>
    intro b h
    rw [List.mem_cons] at h
    push_neg at h
    obtain ⟨h1, h2⟩ := h
    have hc : ¬ (c = sep) := fun hh => h1 hh.symm
    simp only [List.cons_append, splitChar, if_neg hc, List.append_eq, ih b h2]

theorem ipToString_data (addr : Nat) : (ipToString addr).data =
    (toString (addr / 16777216 % 256)).data ++ '.' ::
      ((toString (addr / 65536 % 256)).data ++ '.' ::
        ((toString (addr / 256 % 256)).data ++ '.' :: (toString (addr % 256)).data)) := by
  simp [ipToString, String.data_append]

theorem parseIPv4_ipToString {addr : Nat} (h : addr < 2 ^ 32) :
    parseIPv4 (ipToString addr).data = some addr := by
  have b1 : addr / 16777216 % 256 < 256 := Nat.mod_lt _ (by norm_num)
  have b2 : addr / 65536 % 256 < 256 := Nat.mod_lt _ (by norm_num)
  have b3 : addr / 256 % 256 < 256 := Nat.mod_lt _ (by norm_num)
  have b4 : addr % 256 < 256 := Nat.mod_lt _ (by norm_num)
  rw [parseIPv4, ipToString_data,
    splitChar_append_sep _ (dot_not_mem_repr _ b1),
    splitChar_append_sep _ (dot_not_mem_repr _ b2),
    splitChar_append_sep _ (dot_not_mem_repr _ b3),
    splitChar_of_not_mem (dot_not_mem_repr _ b4)]
  dsimp only
  rw [parseOctet_repr _ b1, parseOctet_repr _ b2, parseOctet_repr _ b3,
    parseOctet_repr _ b4]
  dsimp only
  have hdec : ip4 (addr / 16777216 % 256) (addr / 65536 % 256) (addr / 256 % 256)
      (addr % 256) = addr := by
    have h32 : (2 : Nat) ^ 32 = 4294967296 := by norm_num
    rw [h32] at h
    simp only [ip4]
    omega
  rw [hdec]

theorem slash_not_mem_ipToString (addr : Nat) : ('/' : Char) ∉ (ipToString addr).data := by
  have b1 : addr / 16777216 % 256 < 256 := Nat.mod_lt _ (by norm_num)
  have b2 : addr / 65536 % 256 < 256 := Nat.mod_lt _ (by norm_num)
  have b3 : addr / 256 % 256 < 256 := Nat.mod_lt _ (by norm_num)
  have b4 : addr % 256 < 256 := Nat.mod_lt _ (by norm_num)
  rw [ipToString_data]
  simp only [List.mem_append, List.mem_cons]
  push_neg
  exact ⟨slash_not_mem_repr _ b1, by decide,
    slash_not_mem_repr _ b2, by decide,
    slash_not_mem_repr _ b3, by decide, slash_not_mem_repr _ b4⟩

theorem parseCIDR_netToString {n : Net} (hb : n.base < 2 ^ 32) (hp : n.pfx ≤ 32)
    (ha : n.base % 2 ^ (32 - n.pfx) = 0) : parseCIDR (netToString n) = some n := by
  have hsp : ('/' : Char) ∉ (toString n.pfx).data := slash_not_mem_repr _ (by omega)
  have hdata : (netToString n).data =
      (ipToString n.base).data ++ '/' :: (toString n.pfx).data := by
    simp [netToString, String.data_append]
  rw [parseCIDR, hdata, parseCIDRChars,
    splitChar_append_sep _ (slash_not_mem_ipToString n.base),
    splitChar_of_not_mem hsp]
  dsimp only
  rw [parseIPv4_ipToString hb, parsePrefixLen_repr _ hp]
  dsimp only
  rw [if_pos ha]

/-! ## C4: loader output shape -/

theorem dictInsert_mem {pcs : List (String × String)} {k v : String}
    {e : String × String} (h : e ∈ dictInsert k v pcs) : e = (k, v) ∨ e ∈ pcs := by
  induction pcs with
  | nil => simpa [dictInsert] using h
  | cons hd tl ih =>
    by_cases hk : hd.1 = k
    · rw [dictInsert, if_pos hk, List.mem_cons] at h
      rcases h with h | h
      · exact Or.inl h
      · exact Or.inr (List.mem_cons_of_mem _ h)
    · rw [dictInsert, if_neg hk, List.mem_cons] at h
      rcases h with h | h
      · exact Or.inr (h ▸ List.mem_cons_self hd tl)
      · rcases ih h with h' | h'
        · exact Or.inl h'
        · exact Or.inr (List.mem_cons_of_mem _ h')

theorem dictInsert_length (k v : String) (pcs : List (String × String)) :
    (dictInsert k v pcs).length ≤ pcs.length + 1 := by
  induction pcs with
  | nil => simp [dictInsert]
  | cons hd tl ih =>
    rw [dictInsert]
    split
    · simp
    · simpa using Nat.succ_le_succ ih

theorem rowDict_mem {r : Row} {pcs : List (String × String)}
    {e : String × String} (h : e ∈ rowDict r pcs) :
    e ∈ pcs ∨ ∃ n : Net, parseCIDR e.1 = some n ∧ e.1 = netToString n ∧
      is_local_network n = false := by
  rcases r with ⟨rn, rp⟩
  rcases rn with _ | ns
  · exact Or.inl (by simpa [rowDict] using h)
  · rcases rp with _ | p
    · exact Or.inl (by simpa [rowDict] using h)
    · by_cases he : (ns.isEmpty || p.isEmpty) = true
      · exact Or.inl (by simpa [rowDict, he] using h)
      · rcases hpc : parseCIDR ns with _ | net
        · exact Or.inl (by simpa [rowDict, he, hpc] using h)
        · by_cases hl : is_local_network net = true
          · exact Or.inl (by simpa [rowDict, he, hpc, hl] using h)
          · simp only [rowDict, he, hpc, hl] at h
            rcases dictInsert_mem (by simpa using h) with h' | h'
            · obtain ⟨hb, hp, hal⟩ := parseCIDRChars_wf hpc
              exact Or.inr ⟨net, by rw [h']; exact parseCIDR_netToString hb hp hal,
                by rw [h'], by simpa using hl⟩
            · exact Or.inl h'

theorem rowDict_length (r : Row) (pcs : List (String × String)) :
    (rowDict r pcs).length ≤ pcs.length + (rowNets r).length := by
  rcases r with ⟨rn, rp⟩
  rcases rn with _ | ns
  · simp [rowDict, rowNets]
  · rcases rp with _ | p
    · simp [rowDict, rowNets]
    · by_cases he : (ns.isEmpty || p.isEmpty) = true
      · simp [rowDict, rowNets, he]
      · rcases hpc : parseCIDR ns with _ | net
        · simp [rowDict, rowNets, he, hpc]
        · by_cases hl : is_local_network net = true
          · simp [rowDict, rowNets, he, hpc, hl]
          · simpa [rowDict, rowNets, he, hpc, hl] using dictInsert_length (netToString net) p pcs

theorem processLoop_inv (maxN : Option Nat) (rows : List Row) :
    ∀ (cnt : Nat) (nets : List String) (pcs : List (String × String)),
      (∀ e ∈ pcs, ∃ n : Net, parseCIDR e.1 = some n ∧ e.1 = netToString n ∧
        is_local_network n = false) →
      pcs.length ≤ nets.length →
      (∀ e ∈ (processLoop maxN rows cnt nets pcs).2,
        ∃ n : Net, parseCIDR e.1 = some n ∧ e.1 = netToString n ∧
          is_local_network n = false) ∧
      (processLoop maxN rows cnt nets pcs).2.length ≤
        (processLoop maxN rows cnt nets pcs).1.length := by
  induction rows with
  | nil => exact fun cnt nets pcs h1 h2 => ⟨h1, h2⟩
  | cons r rest ih =>
    intro cnt nets pcs h1 h2
    rcases hcap : capReached maxN cnt with _ | _
    · rw [processLoop_cons maxN r rest cnt nets pcs hcap]
      refine ih _ _ _ ?_ ?_
      · intro e he
        rcases rowDict_mem he with h | h
        · exact h1 e h
        · exact h
      · calc (rowDict r pcs).length
            ≤ pcs.length + (rowNets r).length := rowDict_length r pcs
          _ ≤ nets.length + (rowNets r).length := Nat.add_le_add_right h2 _
          _ = (nets ++ rowNets r).length := (List.length_append _ _).symm
    · rw [processLoop, hcap]
      exact ⟨h1, h2⟩

/-- C4 (amended): for every input row source and cap, no key of the
returned map corresponds to a network classified local — every key parses
(via `ipaddress.ip_network`) to the non-local network it canonically
renders — and the map's key count never exceeds the length of the
returned networks list. (The claimed equality of the two sizes fails for
duplicate CIDRs, which append to the list twice but overwrite the single
map key — see the counterexample.) -/
theorem process_input_csv_no_local_keys_and_length_le
    (rows : List Row) (maxN : Option Nat) :
    (∀ e ∈ (process_input_csv rows maxN).2,
      ∃ n : Net, parseCIDR e.1 = some n ∧ e.1 = netToString n ∧
        is_local_network n = false) ∧
    (process_input_csv rows maxN).2.length ≤ (process_input_csv rows maxN).1.length :=
  processLoop_inv maxN rows 0 [] [] (fun e he => absurd he (List.not_mem_nil e)) (Nat.le_refl 0)

/-- The key predicate of the amended C4 is not vacuous: the key string of
a local network fails it, because `parseCIDR` is a function and parses
that string to the local network itself. -/
example : ∀ n : Net, parseCIDR ("192.168.0.0/30") = some n →
    is_local_network n = true := by
  intro n h
  have hp : parseCIDR ("192.168.0.0/30") = some ⟨ip4 192 168 0 0, 30⟩ := by decide
  rw [hp] at h
  injection h with h'
  rw [← h']
  decide

/-- C4 counterexample: two rows carrying the same public CIDR produce a
networks list of length 2 but a map with a single key, refuting the
claimed equality of list length and key count. -/
theorem process_input_csv_length_counterexample :
    ¬ ((process_input_csv rows4 none).1.length =
        (process_input_csv rows4 none).2.length) := by
  decide

/-- Witness: the amended claim observed on a concrete one-row input. -/
theorem process_input_csv_no_local_keys_witness :
    (∃ n : Net, parseCIDR (("8.8.8.0/24", "11111") : String × String).1 = some n ∧
        (("8.8.8.0/24", "11111") : String × String).1 = netToString n ∧
        is_local_network n = false) ∧
      (process_input_csv rowsW none).2.length ≤
        (process_input_csv rowsW none).1.length :=
  ⟨(process_input_csv_no_local_keys_and_length_le rowsW none).1
      ("8.8.8.0/24", "11111") (by decide),
    (process_input_csv_no_local_keys_and_length_le rowsW none).2⟩

/-! ## C5: what counts toward the cap -/

theorem processLoop_capped {maxN : Option Nat} {cnt : Nat}
    (rows : List Row) (nets : List String) (pcs : List (String × String))
    (hcap : capReached maxN cnt = true) :
    processLoop maxN rows cnt nets pcs = (nets, pcs) := by
  cases rows with
  | nil => rfl
  | cons r rest =>
    rw [processLoop, hcap]
    rfl

theorem processLoop_trunc (m : Nat) (rows : List Row) :
    ∀ (cnt : Nat) (nets : List String) (pcs : List (String × String)), cnt < m →
      processLoop (some m) rows cnt nets pcs =
        processLoop none (truncAfter (m - cnt) rows) cnt nets pcs := by
  induction rows with
  | nil => intro cnt nets pcs _; rfl
  | cons r rest ih =>
    intro cnt nets pcs hlt
    have hcap : capReached (some m) cnt = false := by
      simp only [capReached]
      split
      · rfl
      · rw [decide_eq_false_iff_not]
        omega
    rw [processLoop_cons (some m) r rest cnt nets pcs hcap, truncAfter]
    rcases hcr : rowCounted r with _ | _
    · show processLoop (some m) rest cnt (nets ++ rowNets r) (rowDict r pcs) =
        processLoop none (r :: truncAfter (m - cnt) rest) cnt nets pcs
      rw [processLoop_cons none r (truncAfter (m - cnt) rest) cnt nets pcs rfl, hcr]
      exact ih cnt _ _ hlt
    · show processLoop (some m) rest (cnt + 1) (nets ++ rowNets r) (rowDict r pcs) =
        processLoop none (if m - cnt ≤ 1 then [r] else r :: truncAfter (m - cnt - 1) rest)
          cnt nets pcs
      by_cases h1 : m - cnt ≤ 1
      · rw [if_pos h1, processLoop_cons none r [] cnt nets pcs rfl, hcr]
        have hm2 : capReached (some m) (cnt + 1) = true := by
          simp only [capReached]
          split
          · exfalso
            omega
          · rw [decide_eq_true_eq]
            omega
        rw [processLoop_capped rest _ _ hm2]
        rfl
      · rw [if_neg h1,
          processLoop_cons none r (truncAfter (m - cnt - 1) rest) cnt nets pcs rfl, hcr]
        have h2 : m - cnt - 1 = m - (cnt + 1) := by omega
        rw [h2]
        exact ih (cnt + 1) _ _ (by omega)

/-- C5 (amended): for a positive cap `N`, truncation happens after `N`
counted rows, where a row counts toward the cap iff both fields are
present and nonempty and its network string either parses to a retained
non-local network **or fails CIDR parsing** (the `ValueError` branch falls
through to `row_count += 1`); rows with missing/empty fields and rows
parsing to local networks do not count. -/
theorem process_input_csv_cap_truncation (rows : List Row) (m : Nat) (hm : 0 < m) :
    process_input_csv rows (some m) = process_input_csv (truncAfter m rows) none := by
  unfold process_input_csv
  simpa using processLoop_trunc m rows 0 [] [] hm

/-- C5 counterexample: with cap 1, a first row whose network string fails
CIDR parsing consumes the whole cap, so the valid second row is never
processed — unlike the claim's variant in which parse failures are
uncounted. -/
theorem process_input_csv_cap_counts_parse_failures :
    process_input_csv rows5 (some 1) ≠ process_input_csv_claim rows5 (some 1) := by
  decide

/-- Witness: the amended truncation equation at a concrete input and cap 1. -/
theorem process_input_csv_cap_truncation_witness :
    0 < 1 ∧ process_input_csv rows5 (some 1) = process_input_csv (truncAfter 1 rows5) none :=
  ⟨by decide, process_input_csv_cap_truncation rows5 1 (by decide)⟩

/-! ## C6: the fraction of examined hosts marked reachable -/

theorem simTake_length (l : List Nat) :
    ∀ i : Nat, (simTake i l).length = (i + min l.length (10 - i) + 3) / 4 - (i + 3) / 4 := by
  induction l with
  | nil => intro i; simp [simTake]
  | cons ip rest ih =>
    intro i
    rw [simTake]
    by_cases h10 : 10 ≤ i
    · rw [if_pos h10]
      simp only [List.length_nil, List.length_cons]
      omega
    · rw [if_neg h10]
      by_cases h4 : i % 4 = 0
      · rw [if_pos h4]
        simp only [List.length_cons, ih (i + 1)]
        omega
      · rw [if_neg h4]
        rw [ih (i + 1)]
        simp only [List.length_cons]
        omega

/-- C6 (amended): the simulation marks `⌈examined/4⌉` of the hosts it
examines for a network (every 4th enumerated host, starting at index 0,
among the first `min(hosts, 10)`); this is exactly 25% of the examined
hosts precisely when the examined count is a multiple of 4 — not for
every network (a /24 yields 3 of 10, i.e. 30%). -/
theorem simulation_marked_count_formula (n : Net) :
    (simNetworkIPs n).length = (examinedHosts n + 3) / 4 ∧
      (4 * (simNetworkIPs n).length = examinedHosts n ↔ examinedHosts n % 4 = 0) := by
  have h : (simNetworkIPs n).length = (examinedHosts n + 3) / 4 := by
    rw [simNetworkIPs, List.length_map, simTake_length n.hosts 0, examinedHosts]
    omega
  refine ⟨h, ?_⟩
  rw [h]
  omega

/-- C6 counterexample: for the single-network file "8.8.8.0/24" the run
examines 10 hosts and marks 3 reachable — 30%, not exactly 25%. -/
theorem simulation_rate_not_25_percent :
    (simulationScan simFile24).length = 3 ∧ examinedHosts net24ex = 10 ∧
      ¬ (4 * (simulationScan simFile24).length = examinedHosts net24ex) := by
  refine ⟨by decide, by decide, by decide⟩

/-- Witness: the ⌈examined/4⌉ formula observed on the /24. -/
theorem simulation_marked_count_formula_witness :
    (simNetworkIPs net24ex).length = (examinedHosts net24ex + 3) / 4 :=
  (simulation_marked_count_formula net24ex).1

/-! ## C7: which hosts of a /24 the simulation marks -/

theorem simTake_eq_take (l : List Nat) :
    ∀ i : Nat, simTake i l = simTake i (l.take (10 - i)) := by
  induction l with
  | nil => intro i; simp
  | cons ip rest ih =>
    intro i
    by_cases h10 : 10 ≤ i
    · have h0 : 10 - i = 0 := by omega
      simp [simTake, h0, h10]
    · have hsucc : 10 - i = (10 - (i + 1)) + 1 := by omega
      rw [hsucc, List.take_succ_cons, simTake, simTake, if_neg h10, if_neg h10,
        ← ih (i + 1)]

/-- C7 (amended): processing a /24 network adds to the reachable set
exactly its hosts at enumeration indices 0, 4 and 8 (base+1, base+5,
base+9) — three of its first ten usable hosts — and adds no host at
index 10 or beyond. Hosts of the /24 at other indices can still enter the
final set through other, overlapping networks of the same input file
(see the counterexample). -/
theorem simulation_slash24_marks_indices_0_4_8 (n : Net) (h24 : n.pfx = 24) :
    simNetworkIPs n =
      [ipToString (n.base + 1), ipToString (n.base + 5), ipToString (n.base + 9)] := by
  rcases n with ⟨b, p⟩
  simp only at h24
  subst h24
  have hh : Net.hosts ⟨b, 24⟩ = (List.range 254).map (fun i => b + 1 + i) := by
    rw [Net.hosts]
    norm_num [Net.numAddrs]
  rw [simNetworkIPs, simTake_eq_take, hh]
  have ht : (((List.range 254).map (fun i => b + 1 + i)).take (10 - 0)) =
      (List.range 10).map (fun i => b + 1 + i) := by
    rw [← List.map_take]
    congr 1
  rw [ht]
  have hr : List.range 10 = [0, 1, 2, 3, 4, 5, 6, 7, 8, 9] := by decide
  rw [hr]
  simp only [List.map_cons, List.map_nil]
  norm_num [simTake]

/-- C7 counterexample: for the input file holding both 8.8.8.0/24 and the
overlapping 8.8.8.2/31, four — not three — of the /24's first ten usable
hosts end up in the returned reachable set (the /31 contributes 8.8.8.2). -/
theorem simulation_slash24_overlap_counterexample :
    ((net24ex.hosts.take 10).map ipToString).countP
        (fun s => (simulationScan simFileOverlap).contains s) = 4 := by
  decide

/-- Witness: the amended per-network statement at 8.8.8.0/24. -/
theorem simulation_slash24_marks_indices_0_4_8_witness :
    simNetworkIPs net24ex =
      [ipToString (net24ex.base + 1), ipToString (net24ex.base + 5),
        ipToString (net24ex.base + 9)] :=
  simulation_slash24_marks_indices_0_4_8 net24ex rfl

/-! ## Stats-accumulator lemmas -/

theorem bumpFold_eq_bumpStat (p : String) (b : Bool) (st : Stats) :
    bumpFold p (if b then 1 else 0) st = bumpStat p b st := by
  induction st with
  | nil => rfl
  | cons e rest ih =>
    rw [bumpFold, bumpStat]
    by_cases h : e.1 = p
    · rw [if_pos h, if_pos h]
    · rw [if_neg h, if_neg h, ih]

theorem statValue_bumpStat_self (p : String) (b : Bool) (st : Stats) :
    statValue p (bumpStat p b st) =
      ((statValue p st).1 + (if b then 1 else 0), (statValue p st).2 + 1) := by
  induction st with
  | nil => simp [bumpStat, statValue]
  | cons e rest ih =>
    by_cases h : e.1 = p
    · simp [bumpStat, statValue, h]
    · simp [bumpStat, statValue, h, ih]

theorem statValue_bumpStat_ne {p q : String} (hqp : q ≠ p) (b : Bool) (st : Stats) :
    statValue q (bumpStat p b st) = statValue q st := by
  induction st with
  | nil => simp [bumpStat, statValue, Ne.symm hqp]
  | cons e rest ih =>
    by_cases h : e.1 = p
    · simp [bumpStat, statValue, h, Ne.symm hqp]
    · simp [bumpStat, statValue, h, ih]

theorem bumpStat_mem_key {p : String} {b : Bool} {st : Stats}
    {e : String × Nat × Nat} (h : e ∈ bumpStat p b st) :
    e.1 = p ∨ ∃ x ∈ st, e.1 = x.1 := by
  induction st with
  | nil =>
    left
    simp [bumpStat] at h
    rw [h]
  | cons hd tl ih =>
    by_cases hk : hd.1 = p
    · rw [bumpStat, if_pos hk, List.mem_cons] at h
      rcases h with h | h
      · left
        rw [h, hk]
      · right
        exact ⟨e, List.mem_cons_of_mem _ h, rfl⟩
    · rw [bumpStat, if_neg hk, List.mem_cons] at h
      rcases h with h | h
      · right
        exact ⟨hd, List.mem_cons_self hd tl, by rw [h]⟩
      · rcases ih h with h' | ⟨x, hx, h'⟩
        · exact Or.inl h'
        · exact Or.inr ⟨x, List.mem_cons_of_mem _ hx, h'⟩

theorem bumpStat_nodup {p : String} {b : Bool} {st : Stats} (h : KeysNodup st) :
    KeysNodup (bumpStat p b st) := by
  induction st with
  | nil => simp [bumpStat, KeysNodup]
  | cons hd tl ih =>
    rcases List.pairwise_cons.mp h with ⟨hhd, htl⟩
    by_cases hk : hd.1 = p
    · rw [bumpStat, if_pos hk]
      exact List.pairwise_cons.mpr ⟨hhd, htl⟩
    · rw [bumpStat, if_neg hk]
      refine List.pairwise_cons.mpr ⟨?_, ih htl⟩
      intro x hx
      rcases bumpStat_mem_key hx with h1 | ⟨y, hy, h2⟩
      · rw [h1]
        exact hk
      · rw [h2]
        exact hhd y hy

theorem statValue_of_mem {st : Stats} (hnd : KeysNodup st) {p : String}
    {v : Nat × Nat} (hm : (p, v) ∈ st) : statValue p st = v := by
  induction st with
  | nil => cases hm
  | cons e rest ih =>
    rcases List.pairwise_cons.mp hnd with ⟨hhd, htl⟩
    rw [List.mem_cons] at hm
    rcases hm with hm | hm
    · rw [← hm]
      simp [statValue]
    · have hne : e.1 ≠ p := by simpa using hhd (p, v) hm
      rw [statValue, if_neg hne]
      exact ih htl hm

/-! ## C1: the aggregator's counters equal the emitted-row counts -/

theorem CalcInv_bump {st : Stats} {rs : List AddressRecord} (h : CalcInv st rs)
    (nstr ipStr pp : String) (b : Bool) :
    CalcInv (bumpStat pp b st)
      (rs ++ [⟨nstr, ipStr, pp, if b then 1 else 0⟩]) := by
  obtain ⟨hnd, hval⟩ := h
  refine ⟨bumpStat_nodup hnd, ?_⟩
  intro q
  by_cases hq : q = pp
  · subst hq
    rw [statValue_bumpStat_self, hval q]
    have ht : countTotal (rs ++ [⟨nstr, ipStr, q, if b then 1 else 0⟩]) q =
        countTotal rs q + 1 := by
      simp [countTotal, List.countP_append]
    have hr : countReach (rs ++ [⟨nstr, ipStr, q, if b then 1 else 0⟩]) q =
        countReach rs q + (if b then 1 else 0) := by
      cases b <;> simp [countReach, List.countP_append]
    rw [ht, hr]
  · rw [statValue_bumpStat_ne hq, hval q]
    have ht : countTotal (rs ++ [⟨nstr, ipStr, pp, if b then 1 else 0⟩]) q =
        countTotal rs q := by
      simp [countTotal, List.countP_append, Ne.symm hq]
    have hr : countReach (rs ++ [⟨nstr, ipStr, pp, if b then 1 else 0⟩]) q =
        countReach rs q := by
      simp [countReach, List.countP_append, Ne.symm hq]
    rw [ht, hr]

theorem procHosts_inv (reach : List String) (nstr pp : String) :
    ∀ (hostsL : List Nat) (st : Stats) (rs : List AddressRecord),
      CalcInv st rs →
      CalcInv (procHosts reach nstr pp hostsL (st, rs)).1
        (procHosts reach nstr pp hostsL (st, rs)).2 := by
  intro hostsL
  induction hostsL with
  | nil => intro st rs h; exact h
  | cons ip rest ih =>
    intro st rs h
    simp only [procHosts]
    exact ih _ _ (CalcInv_bump h nstr (ipToString ip) pp _)

theorem calcLoop_inv (pcs : List (String × String)) (reach : List String) :
    ∀ (netsL : List String) (st : Stats) (rs : List AddressRecord)
      (st' : Stats) (rs' : List AddressRecord),
      calcLoop pcs reach netsL (st, rs) = some (st', rs') →
      CalcInv st rs → CalcInv st' rs' := by
  intro netsL
  induction netsL with
  | nil =>
    intro st rs st' rs' h hinv
    rw [calcLoop] at h
    simp only [Option.some.injEq, Prod.mk.injEq] at h
    obtain ⟨rfl, rfl⟩ := h
    exact hinv
  | cons nstr rest ih =>
    intro st rs st' rs' h hinv
    rw [calcLoop] at h
    rcases hp : parseCIDR nstr with _ | net <;>
      rcases hd : dictGet nstr pcs with _ | p <;> rw [hp, hd] at h
    · cases h
    · cases h
    · cases h
    · dsimp only at h
      rcases hacc : procHosts reach nstr p net.hosts (st, rs) with ⟨st1, rs1⟩
      rw [hacc] at h
      have hinv1 : CalcInv st1 rs1 := by
        have h2 := procHosts_inv reach nstr p net.hosts st rs hinv
        rwa [hacc] at h2
      exact ih st1 rs1 st' rs' h hinv1

/-- C1: when `calculate_availability networks postal_codes reachable_ips`
returns (in particular whenever every network has a postal-code key and
re-parses), every entry `(p, reachable_count, total_count)` of the
returned mapping satisfies: `reachable_count` is the number of emitted
`AddressRecord` rows with postal code `p` and `reachable = 1`, and
`total_count` is the number of all emitted rows with postal code `p`,
accumulated across all networks mapped to `p`. -/
theorem calculate_availability_counts (networks : List String)
    (postal_codes : List (String × String)) (reachable_ips : List String)
    (stats : Stats) (recs : List AddressRecord)
    (h : calculate_availability networks postal_codes reachable_ips = some (stats, recs)) :
    ∀ p c t, (p, c, t) ∈ stats → c = countReach recs p ∧ t = countTotal recs p := by
  intro p c t hm
  have hinv : CalcInv stats recs := by
    refine calcLoop_inv postal_codes reachable_ips networks [] [] stats recs h ?_
    exact ⟨List.Pairwise.nil, fun q => by simp [statValue, countReach, countTotal]⟩
  have hv := statValue_of_mem hinv.1 hm
  rw [hinv.2 p] at hv
  injection hv with h1 h2
  exact ⟨h1.symm, h2.symm⟩

/-- Witness: the /30 run returns counters (1, 2) for postal code X, and
they equal the row counts of the emitted records. -/
theorem calculate_availability_counts_witness :
    calculate_availability nets30 pcs30 reach30 = some (exStats, exRecs) ∧
      (1 = countReach exRecs ("X") ∧ 2 = countTotal exRecs ("X")) :=
  ⟨by decide,
    calculate_availability_counts nets30 pcs30 reach30 exStats exRecs (by decide)
      ("X") 1 2 (by decide)⟩

/-! ## C2: the direct fold reproduces the aggregator's mapping -/

theorem calcFromRecords_append (rs : List AddressRecord) (r : AddressRecord) :
    calculate_availability_from_records (rs ++ [r]) =
      bumpFold r.postal_code r.reachable (calculate_availability_from_records rs) := by
  simp [calculate_availability_from_records, List.foldl_append]

theorem procHosts_fold (reach : List String) (nstr pp : String) :
    ∀ (hostsL : List Nat) (st : Stats) (rs : List AddressRecord),
      st = calculate_availability_from_records rs →
      (procHosts reach nstr pp hostsL (st, rs)).1 =
        calculate_availability_from_records
          (procHosts reach nstr pp hostsL (st, rs)).2 := by
  intro hostsL
  induction hostsL with
  | nil => intro st rs h; exact h
  | cons ip rest ih =>
    intro st rs h
    simp only [procHosts]
    refine ih _ _ ?_
    rw [calcFromRecords_append, h, bumpFold_eq_bumpStat]

theorem calcLoop_fold (pcs : List (String × String)) (reach : List String) :
    ∀ (netsL : List String) (st : Stats) (rs : List AddressRecord)
      (st' : Stats) (rs' : List AddressRecord),
      calcLoop pcs reach netsL (st, rs) = some (st', rs') →
      st = calculate_availability_from_records rs →
      st' = calculate_availability_from_records rs' := by
  intro netsL
  induction netsL with
  | nil =>
    intro st rs st' rs' h hfold
    rw [calcLoop] at h
    simp only [Option.some.injEq, Prod.mk.injEq] at h
    obtain ⟨rfl, rfl⟩ := h
    exact hfold
  | cons nstr rest ih =>
    intro st rs st' rs' h hfold
    rw [calcLoop] at h
    rcases hp : parseCIDR nstr with _ | net <;>
      rcases hd : dictGet nstr pcs with _ | p <;> rw [hp, hd] at h
    · cases h
    · cases h
    · cases h
    · dsimp only at h
      rcases hacc : procHosts reach nstr p net.hosts (st, rs) with ⟨st1, rs1⟩
      rw [hacc] at h
      have hfold1 : st1 = calculate_availability_from_records rs1 := by
        have h2 := procHosts_fold reach nstr p net.hosts st rs hfold
        rwa [hacc] at h2
      exact ih st1 rs1 st' rs' h hfold1

/-- C2: folding the `AddressRecord` rows emitted by the expansion-based
aggregator with the direct-fold variant (`total += 1`, `reachable_count +=
row.reachable` per row) reproduces exactly the stats mapping the
expansion-based aggregator returned for the same inputs. -/
theorem calculate_availability_roundtrip (networks : List String)
    (postal_codes : List (String × String)) (reachable_ips : List String)
    (stats : Stats) (recs : List AddressRecord)
    (h : calculate_availability networks postal_codes reachable_ips = some (stats, recs)) :
    calculate_availability_from_records recs = stats :=
  (calcLoop_fold postal_codes reachable_ips networks [] [] stats recs h rfl).symm

/-- Witness: the round-trip observed on the /30 run. -/
theorem calculate_availability_roundtrip_witness :
    calculate_availability_from_records exRecs = exStats :=
  calculate_availability_roundtrip nets30 pcs30 reach30 exStats exRecs (by decide)
